import Mathlib

/-!
# Verification of the hand-gesture mouse-control pipeline

A shallow embedding of the per-frame gesture/cursor pipeline of
`Hand_gesture_mouse_control.py` (the `capture_loop` worker and the
`map_with_margin` helper), together with proofs of the specified
properties.

Coordinates are modelled as rational numbers; Python's `int(...)`
truncation toward zero is `pyInt`.  Each camera frame either carries a
detected hand (21 landmarks, indexed as in the hand-tracking
convention) or none.  The mutable loop variables (`prev_x`, `prev_y`,
`middle_grabbed`, `pinky_was_down`, `ring_was_down`,
`all_fingers_were_down`) form `LoopState`.  Observable side effects on
the mouse are collected as a list of `MouseAction`s; `os._exit(0)` is
the `FrameResult.terminated` outcome, after which no further frame is
processed (`run` stops there).
-/

/-- Python `int(...)` applied to a rational: truncation toward zero. -/
def pyInt (q : ℚ) : ℤ := if 0 ≤ q then ⌊q⌋ else -⌊-q⌋

/-- Constant `SMOOTH_ALPHA = 0.30`, the cursor-smoothing factor. -/
def SMOOTH_ALPHA : ℚ := 3/10

/-- Constant `CAMERA_MARGIN = 0.10`, the edge margin of the usable camera field. -/
def CAMERA_MARGIN : ℚ := 1/10

/-- Constant `CURL_THRESHOLD = 0.04`, threshold for a strongly curled finger. -/
def CURL_THRESHOLD : ℚ := 4/100

/-- Constant `STRONG_UP_THRESHOLD = 0.04`, threshold for a strongly extended finger. -/
def STRONG_UP_THRESHOLD : ℚ := 4/100

/-- Source helper `map_with_margin(val, margin)`: map a value in [0,1] to [0,1] with
margin on both sides, clamping with `min(max(·, 0), 1)`. -/
def map_with_margin (val margin : ℚ) : ℚ :=
  min (max ((val - margin) / (1 - 2 * margin)) 0) 1

/-- One normalized hand landmark: an (x, y) pair. -/
structure Landmark where
  x : ℚ
  y : ℚ
deriving DecidableEq, Repr

/-- A detected hand: the landmark sequence `lm`, accessed by index
(the code only reads indices 0–20). -/
def Hand := ℕ → Landmark

/-- Python `i == lm[j]` for an integer `i` and a landmark object:
always `False`, since an `int` never equals a landmark message. -/
def intEqLandmark (_ : ℕ) (_ : Landmark) : Bool := false

/-- The landmark container `lm` as the list of its 21 elements. -/
def handList (h : Hand) : List Landmark := (List.range 21).map h

/-- Python `i in lm`: membership of the integer `i` among the landmark
objects of the container. -/
def intInLandmarks (i : ℕ) (lms : List Landmark) : Bool :=
  lms.any (intEqLandmark i)

/-- Classification `middle_down = middle_tip.y > middle_pip.y` (tip 12, pip 10). -/
def middleDown (h : Hand) : Bool := decide ((h 10).y < (h 12).y)

/-- Classification `ring_down = ring_tip.y > ring_pip.y` (tip 16, pip 14). -/
def ringDown (h : Hand) : Bool := decide ((h 14).y < (h 16).y)

/-- Classification `pinky_down = pinky_tip.y > pinky_pip.y` (tip 20, pip 18). -/
def pinkyDown (h : Hand) : Bool := decide ((h 18).y < (h 20).y)

/-- Strong state `index_strong_up = index_tip.y < lm[6].y - STRONG_UP_THRESHOLD`. -/
def indexStrongUp (h : Hand) : Bool :=
  decide ((h 8).y < (h 6).y - STRONG_UP_THRESHOLD)

/-- Strong state `pinky_strong_up = pinky_tip.y < pinky_pip.y - STRONG_UP_THRESHOLD`. -/
def pinkyStrongUp (h : Hand) : Bool :=
  decide ((h 20).y < (h 18).y - STRONG_UP_THRESHOLD)

/-- Strong state `middle_strong_down = middle_tip.y > middle_pip.y + CURL_THRESHOLD`. -/
def middleStrongDown (h : Hand) : Bool :=
  decide ((h 10).y + CURL_THRESHOLD < (h 12).y)

/-- Strong state `ring_strong_down = ring_tip.y > ring_pip.y + CURL_THRESHOLD`. -/
def ringStrongDown (h : Hand) : Bool :=
  decide ((h 14).y + CURL_THRESHOLD < (h 16).y)

/-- The strict rock-and-roll exit condition: all four strong states hold. -/
def qualifiesB (h : Hand) : Bool :=
  indexStrongUp h && pinkyStrongUp h && middleStrongDown h && ringStrongDown h

/-- Mouse buttons. -/
inductive MButton
  | left
  | right
deriving DecidableEq, Repr

/-- Observable mouse side effects of one frame. -/
inductive MouseAction
  | moveTo (x y : ℤ)
  | press (b : MButton)
  | release (b : MButton)
deriving DecidableEq, Repr

/-- The mutable per-loop variables of `capture_loop`. -/
structure LoopState where
  prev_x : ℤ
  prev_y : ℤ
  middle_grabbed : Bool
  pinky_was_down : Bool
  ring_was_down : Bool
  all_fingers_were_down : Bool
deriving DecidableEq, Repr

/-- The initial loop state: `prev_x = prev_y = 0`, all latches `False`. -/
def initState : LoopState :=
  { prev_x := 0, prev_y := 0, middle_grabbed := false,
    pinky_was_down := false, ring_was_down := false,
    all_fingers_were_down := false }

/-- Session constants: destination screen width and height. -/
structure Config where
  scr_w : ℤ
  scr_h : ℤ
deriving DecidableEq, Repr

/-- The payload handed to the overlay each frame: the fingertip screen
coordinates `tips_scr` and the `active_gestures` flags, both keyed by
`(hand_idx, lm_idx)`. -/
structure FrameOutput where
  tips : List ((ℕ × ℕ) × (ℤ × ℤ))
  gestures : List ((ℕ × ℕ) × Bool)
deriving DecidableEq, Repr

/-- The outcome of one frame: either the process exits (`terminated`,
with the mouse actions already performed this frame), or the loop
continues with a new state, the frame's mouse actions, and the payload
pushed to the overlay queue. -/
inductive FrameResult
  | terminated (actions : List MouseAction)
  | next (s : LoopState) (actions : List MouseAction) (out : FrameOutput)
deriving DecidableEq, Repr

/-- Cursor mapping `cursor_x = int(map_with_margin(index_tip.x, CAMERA_MARGIN) * scr_w)`. -/
def cursorX (cfg : Config) (h : Hand) : ℤ :=
  pyInt (map_with_margin (h 8).x CAMERA_MARGIN * cfg.scr_w)

/-- Cursor mapping `cursor_y = int(map_with_margin(index_tip.y, CAMERA_MARGIN) * scr_h)`. -/
def cursorY (cfg : Config) (h : Hand) : ℤ :=
  pyInt (map_with_margin (h 8).y CAMERA_MARGIN * cfg.scr_h)

/-- Smoothing step `smooth = int(prev + SMOOTH_ALPHA * (raw - prev))`, one axis. -/
def smoothStep (prev raw : ℤ) : ℤ :=
  pyInt ((prev : ℚ) + SMOOTH_ALPHA * ((raw : ℚ) - (prev : ℚ)))

/-- The middle-finger grab block: given `middle_down` and the
`middle_grabbed` latch, the emitted actions and the new latch. -/
def grabStep (down grabbed : Bool) : List MouseAction × Bool :=
  if down then
    (if grabbed then [] else [MouseAction.press MButton.left], true)
  else
    (if grabbed then [MouseAction.release MButton.left] else [], false)

/-- The ring/pinky click block for button `b`: given the finger's
`down` state and its `was_down` latch, the emitted actions (a full
press-then-release on the rising edge) and the new latch. -/
def clickStep (b : MButton) (down wasDown : Bool) : List MouseAction × Bool :=
  if down then
    (if wasDown then [] else [MouseAction.press b, MouseAction.release b], true)
  else
    ([], false)

/-- The fingertip projection loop: for each of the four tracked tips,
guarded by Python's `if i in lm`, the margin-mapped and scaled screen
coordinate `(int(scr_w * fx), int(scr_h * fy))`. -/
def tipsFor (cfg : Config) (h : Hand) : List ((ℕ × ℕ) × (ℤ × ℤ)) :=
  [8, 12, 16, 20].filterMap fun i =>
    if intInLandmarks i (handList h) then
      some ((0, i),
        (pyInt ((cfg.scr_w : ℚ) * map_with_margin (h i).x CAMERA_MARGIN),
         pyInt ((cfg.scr_h : ℚ) * map_with_margin (h i).y CAMERA_MARGIN)))
    else none

/-- The `active_gestures` entries of a hand frame, in insertion order:
index always active, middle/ring/pinky active iff down. -/
def gesturesFor (h : Hand) : List ((ℕ × ℕ) × Bool) :=
  [((0, 8), true), ((0, 12), middleDown h),
   ((0, 16), ringDown h), ((0, 20), pinkyDown h)]

/-- One iteration of the body of `capture_loop` after a frame was read:
no hand detected leaves the state untouched and pushes empty maps; a
hand moves the cursor (mapped, smoothed, truncated), then checks the
exit gesture (`os._exit(0)` on its rising edge), then runs the grab and
the two click blocks, then projects the fingertips and pushes the
payload. -/
def processFrame (cfg : Config) (s : LoopState) : Option Hand → FrameResult
  | none => FrameResult.next s [] ⟨[], []⟩
  | some h =>
    let sx := smoothStep s.prev_x (cursorX cfg h)
    let sy := smoothStep s.prev_y (cursorY cfg h)
    if qualifiesB h && !s.all_fingers_were_down then
      FrameResult.terminated [MouseAction.moveTo sx sy]
    else
      let g := grabStep (middleDown h) s.middle_grabbed
      let rc := clickStep MButton.right (ringDown h) s.ring_was_down
      let pc := clickStep MButton.left (pinkyDown h) s.pinky_was_down
      FrameResult.next
        ⟨sx, sy, g.2, pc.2, rc.2, qualifiesB h⟩
        (MouseAction.moveTo sx sy :: (g.1 ++ (rc.1 ++ pc.1)))
        ⟨tipsFor cfg h, gesturesFor h⟩

/-- The cumulative result of running the loop over a list of frames. -/
structure RunResult where
  actions : List MouseAction
  outputs : List FrameOutput
  terminated : Bool
  final : LoopState
deriving DecidableEq, Repr

/-- Run `capture_loop` over a list of frames, stopping (as `os._exit`
does) at the first terminating frame. -/
def run (cfg : Config) (s : LoopState) : List (Option Hand) → RunResult
  | [] => ⟨[], [], false, s⟩
  | f :: fs =>
    match processFrame cfg s f with
    | FrameResult.terminated a => ⟨a, [], true, s⟩
    | FrameResult.next s' a out =>
      let r := run cfg s' fs
      ⟨a ++ r.actions, out :: r.outputs, r.terminated, r.final⟩


/-- Project the mouse actions out of a frame result. -/
def FrameResult.actions : FrameResult → List MouseAction
  | FrameResult.terminated a => a
  | FrameResult.next _ a _ => a

/-- The loop state after a non-terminating hand frame. -/
def nextState (cfg : Config) (s : LoopState) (h : Hand) : LoopState :=
  ⟨smoothStep s.prev_x (cursorX cfg h), smoothStep s.prev_y (cursorY cfg h),
   (grabStep (middleDown h) s.middle_grabbed).2,
   (clickStep MButton.left (pinkyDown h) s.pinky_was_down).2,
   (clickStep MButton.right (ringDown h) s.ring_was_down).2,
   qualifiesB h⟩

/-- The mouse actions of a non-terminating hand frame, in program
order: cursor move, then the grab block, then the ring click block,
then the pinky click block. -/
def frameActs (cfg : Config) (s : LoopState) (h : Hand) : List MouseAction :=
  MouseAction.moveTo (smoothStep s.prev_x (cursorX cfg h))
      (smoothStep s.prev_y (cursorY cfg h)) ::
    ((grabStep (middleDown h) s.middle_grabbed).1 ++
      ((clickStep MButton.right (ringDown h) s.ring_was_down).1 ++
       (clickStep MButton.left (pinkyDown h) s.pinky_was_down).1))

/-- Number of false-to-true edges in a boolean frame sequence, given
the latch value before the first frame. -/
def edgeCount : Bool → List Bool → ℕ
  | _, [] => 0
  | prev, b :: bs => (if b && !prev then 1 else 0) + edgeCount b bs

/-- Every `press right` in the list is immediately followed by
`release right`. -/
def rightPaired : List MouseAction → Bool
  | [] => true
  | MouseAction.press MButton.right :: MouseAction.release MButton.right :: rest =>
    rightPaired rest
  | MouseAction.press MButton.right :: _ => false
  | _ :: rest => rightPaired rest

/-- Modelled from the spec: the per-frame orchestration order as §4.5
states it — classify finger states, then evaluate the exit gesture
(terminating immediately and unconditionally, bypassing all further
per-frame work including flushing any pending output), then update the
grab/click latches, then map and smooth the cursor position, then
project the fingertips, then assemble the frame output.  Under this
order a terminating frame performs no mouse action at all.  Defined for
comparison with `processFrame`, which is the order the code actually
implements. -/
def processFrameSpecOrder (cfg : Config) (s : LoopState) :
    Option Hand → FrameResult
  | none => FrameResult.next s [] ⟨[], []⟩
  | some h =>
    if qualifiesB h && !s.all_fingers_were_down then
      FrameResult.terminated []
    else
      let g := grabStep (middleDown h) s.middle_grabbed
      let rc := clickStep MButton.right (ringDown h) s.ring_was_down
      let pc := clickStep MButton.left (pinkyDown h) s.pinky_was_down
      let sx := smoothStep s.prev_x (cursorX cfg h)
      let sy := smoothStep s.prev_y (cursorY cfg h)
      FrameResult.next
        ⟨sx, sy, g.2, pc.2, rc.2, qualifiesB h⟩
        ((g.1 ++ (rc.1 ++ pc.1)) ++ [MouseAction.moveTo sx sy])
        ⟨tipsFor cfg h, gesturesFor h⟩

/-! ## Concrete sample inputs -/

/-- A 1920×1080 destination screen. -/
def cfg0 : Config := ⟨1920, 1080⟩

/-- All landmarks at (0.5, 0.5): every down/strong state is false. -/
def flatHand : Hand := fun _ => ⟨1/2, 1/2⟩

/-- Middle tip at y = 0.6, middle pip at y = 0.5, the rest flat. -/
def middleDownHand : Hand := fun i =>
  if i = 12 then ⟨1/2, 6/10⟩ else ⟨1/2, 1/2⟩

/-- Ring tip at y = 0.6, ring pip at y = 0.5, the rest flat. -/
def ringDownHand : Hand := fun i =>
  if i = 16 then ⟨1/2, 6/10⟩ else ⟨1/2, 1/2⟩

/-- Pinky tip at y = 0.6, pinky pip at y = 0.5, the rest flat. -/
def pinkyDownHand : Hand := fun i =>
  if i = 20 then ⟨1/2, 6/10⟩ else ⟨1/2, 1/2⟩

/-- The rock-and-roll exit gesture: index and pinky tips well above
their pips, middle and ring tips well below their pips; the index tip
sits at (0.5, 0.5). -/
def exitHand : Hand := fun i =>
  if i = 6 then ⟨1/2, 6/10⟩
  else if i = 12 then ⟨1/2, 6/10⟩
  else if i = 16 then ⟨1/2, 6/10⟩
  else if i = 20 then ⟨1/2, 4/10⟩
  else ⟨1/2, 1/2⟩

/-! ## Basic facts about the embedding -/

lemma pyInt_of_nonneg {q : ℚ} (h : 0 ≤ q) : pyInt q = ⌊q⌋ := if_pos h

lemma pyInt_nonneg {q : ℚ} (h : 0 ≤ q) : 0 ≤ pyInt q := by
  rw [pyInt_of_nonneg h]
  exact Int.floor_nonneg.mpr h

lemma pyInt_le_of_le {q : ℚ} {n : ℤ} (h0 : 0 ≤ q) (h : q ≤ (n : ℚ)) :
    pyInt q ≤ n := by
  rw [pyInt_of_nonneg h0]
  calc ⌊q⌋ ≤ ⌊(n : ℚ)⌋ := Int.floor_le_floor h
    _ = n := Int.floor_intCast n

lemma le_pyInt_of_le {q : ℚ} {n : ℤ} (h0 : 0 ≤ q) (h : (n : ℚ) ≤ q) :
    n ≤ pyInt q := by
  rw [pyInt_of_nonneg h0]
  exact Int.le_floor.mpr h

lemma map_with_margin_nonneg (v m : ℚ) : 0 ≤ map_with_margin v m := by
  rw [map_with_margin]
  have h1 : (0 : ℚ) ≤ max ((v - m) / (1 - 2 * m)) 0 := le_max_right _ _
  exact le_min h1 zero_le_one

lemma map_with_margin_le_one (v m : ℚ) : map_with_margin v m ≤ 1 :=
  min_le_right _ _

/-! ## Frame-shape lemmas -/

lemma processFrame_none (cfg : Config) (s : LoopState) :
    processFrame cfg s none = FrameResult.next s [] ⟨[], []⟩ := rfl

lemma processFrame_exit {s : LoopState} {h : Hand} (cfg : Config)
    (hq : qualifiesB h = true) (hl : s.all_fingers_were_down = false) :
    processFrame cfg s (some h) =
      FrameResult.terminated
        [MouseAction.moveTo (smoothStep s.prev_x (cursorX cfg h))
          (smoothStep s.prev_y (cursorY cfg h))] := by
  simp [processFrame, hq, hl]

lemma processFrame_cont {s : LoopState} {h : Hand} (cfg : Config)
    (hc : qualifiesB h = false ∨ s.all_fingers_were_down = true) :
    processFrame cfg s (some h) =
      FrameResult.next (nextState cfg s h) (frameActs cfg s h)
        ⟨tipsFor cfg h, gesturesFor h⟩ := by
  rcases hc with hc | hc <;>
    simp [processFrame, nextState, frameActs, hc]

/-! ## Run lemmas -/

lemma run_nil (cfg : Config) (s : LoopState) :
    run cfg s [] = ⟨[], [], false, s⟩ := rfl

lemma run_cons_term {cfg : Config} {s : LoopState} {f : Option Hand}
    {a : List MouseAction} (hp : processFrame cfg s f = FrameResult.terminated a)
    (fs : List (Option Hand)) :
    run cfg s (f :: fs) = ⟨a, [], true, s⟩ := by
  simp [run, hp]

lemma run_cons_next {cfg : Config} {s s' : LoopState} {f : Option Hand}
    {a : List MouseAction} {out : FrameOutput}
    (hp : processFrame cfg s f = FrameResult.next s' a out)
    (fs : List (Option Hand)) :
    run cfg s (f :: fs) =
      ⟨a ++ (run cfg s' fs).actions, out :: (run cfg s' fs).outputs,
       (run cfg s' fs).terminated, (run cfg s' fs).final⟩ := by
  simp [run, hp]

lemma run_append_of_not_term (cfg : Config) (l1 : List (Option Hand)) :
    ∀ (s : LoopState) (l2 : List (Option Hand)),
      (run cfg s l1).terminated = false →
      run cfg s (l1 ++ l2) =
        ⟨(run cfg s l1).actions ++ (run cfg (run cfg s l1).final l2).actions,
         (run cfg s l1).outputs ++ (run cfg (run cfg s l1).final l2).outputs,
         (run cfg (run cfg s l1).final l2).terminated,
         (run cfg (run cfg s l1).final l2).final⟩ := by
  induction l1 with
  | nil => intro s l2 _; simp [run_nil]
  | cons f fs ih =>
    intro s l2 ht
    cases hp : processFrame cfg s f with
    | terminated a =>
      rw [run_cons_term hp] at ht
      simp at ht
    | next s' a out =>
      rw [run_cons_next hp fs] at ht
      simp only at ht
      rw [List.cons_append, run_cons_next hp (fs ++ l2), ih s' l2 ht,
        run_cons_next hp fs]
      simp

lemma qualifiesB_exitHand : qualifiesB exitHand = true := by
  rw [qualifiesB, indexStrongUp, pinkyStrongUp, middleStrongDown, ringStrongDown]
  norm_num [exitHand, STRONG_UP_THRESHOLD, CURL_THRESHOLD]

lemma flatHand_eval :
    middleDown flatHand = false ∧ ringDown flatHand = false ∧
    pinkyDown flatHand = false ∧ qualifiesB flatHand = false := by
  rw [middleDown, ringDown, pinkyDown, qualifiesB, indexStrongUp, pinkyStrongUp,
    middleStrongDown, ringStrongDown]
  norm_num [flatHand, STRONG_UP_THRESHOLD, CURL_THRESHOLD]

lemma middleDownHand_eval :
    middleDown middleDownHand = true ∧ ringDown middleDownHand = false ∧
    pinkyDown middleDownHand = false ∧ qualifiesB middleDownHand = false := by
  rw [middleDown, ringDown, pinkyDown, qualifiesB, indexStrongUp, pinkyStrongUp,
    middleStrongDown, ringStrongDown]
  norm_num [middleDownHand, STRONG_UP_THRESHOLD, CURL_THRESHOLD]

lemma ringDownHand_eval :
    middleDown ringDownHand = false ∧ ringDown ringDownHand = true ∧
    pinkyDown ringDownHand = false ∧ qualifiesB ringDownHand = false := by
  rw [middleDown, ringDown, pinkyDown, qualifiesB, indexStrongUp, pinkyStrongUp,
    middleStrongDown, ringStrongDown]
  norm_num [ringDownHand, STRONG_UP_THRESHOLD, CURL_THRESHOLD]

lemma pinkyDownHand_eval :
    middleDown pinkyDownHand = false ∧ ringDown pinkyDownHand = false ∧
    pinkyDown pinkyDownHand = true ∧ qualifiesB pinkyDownHand = false := by
  rw [middleDown, ringDown, pinkyDown, qualifiesB, indexStrongUp, pinkyStrongUp,
    middleStrongDown, ringStrongDown]
  norm_num [pinkyDownHand, STRONG_UP_THRESHOLD, CURL_THRESHOLD]

lemma cursorX_exitHand : cursorX cfg0 exitHand = 960 := by
  rw [cursorX, pyInt]
  norm_num [exitHand, cfg0, CAMERA_MARGIN, map_with_margin, min_def, max_def]

lemma cursorY_exitHand : cursorY cfg0 exitHand = 540 := by
  rw [cursorY, pyInt]
  norm_num [exitHand, cfg0, CAMERA_MARGIN, map_with_margin, min_def, max_def]

lemma smoothStep_0_960 : smoothStep 0 960 = 288 := by
  rw [smoothStep, pyInt]
  norm_num [SMOOTH_ALPHA]

lemma smoothStep_0_540 : smoothStep 0 540 = 162 := by
  rw [smoothStep, pyInt]
  norm_num [SMOOTH_ALPHA]

/-! ## C4: the coordinate mapper -/

/-- C4: for `v ∈ [0,1]` and margin `m ∈ [0,0.5)`, `map_with_margin`
clamps `(v-m)/(1-2m)` into `[0,1]`: the result is in `[0,1]`, `v = m`
maps to 0, `v = 1-m` maps to 1, and inputs at or beyond the margins
clamp to 0 and 1 respectively. -/
theorem c4_map_with_margin_clamps (v m : ℚ) (_hv0 : 0 ≤ v) (_hv1 : v ≤ 1)
    (_hm0 : 0 ≤ m) (hm : m < 1/2) :
    (0 ≤ map_with_margin v m ∧ map_with_margin v m ≤ 1) ∧
    map_with_margin m m = 0 ∧
    map_with_margin (1 - m) m = 1 ∧
    (v ≤ m → map_with_margin v m = 0) ∧
    (1 - m ≤ v → map_with_margin v m = 1) := by
  have hd : (0 : ℚ) < 1 - 2 * m := by linarith
  refine ⟨⟨map_with_margin_nonneg v m, map_with_margin_le_one v m⟩, ?_, ?_, ?_, ?_⟩
  · rw [map_with_margin]
    norm_num
  · rw [map_with_margin]
    have h1 : (1 - m - m) / (1 - 2 * m) = 1 := by
      rw [div_eq_one_iff_eq (ne_of_gt hd)]
      ring
    rw [h1]
    norm_num
  · intro hvm
    rw [map_with_margin]
    have h1 : (v - m) / (1 - 2 * m) ≤ 0 :=
      div_nonpos_iff.mpr (Or.inr ⟨by linarith, le_of_lt hd⟩)
    rw [max_eq_right h1]
    norm_num
  · intro hv2
    rw [map_with_margin]
    have h1 : (1 : ℚ) ≤ (v - m) / (1 - 2 * m) := by
      rw [le_div_iff₀ hd]
      linarith
    rw [max_eq_left (le_trans zero_le_one h1)]
    exact min_eq_right h1

/-- Witness for C4 at `v = 1/2`, `m = 1/10`. -/
theorem c4_witness :
    (0 ≤ map_with_margin (1/2) (1/10) ∧ map_with_margin (1/2) (1/10) ≤ 1) ∧
    map_with_margin (1/10) (1/10) = 0 ∧
    map_with_margin (1 - 1/10) (1/10) = 1 ∧
    ((1/2 : ℚ) ≤ 1/10 → map_with_margin (1/2) (1/10) = 0) ∧
    ((1 : ℚ) - 1/10 ≤ 1/2 → map_with_margin (1/2) (1/10) = 1) :=
  c4_map_with_margin_clamps (1/2) (1/10) (by norm_num) (by norm_num)
    (by norm_num) (by norm_num)

/-! ## C6: frames without a detected hand -/

/-- C6: a frame with no hand detected produces the empty payload, no
mouse action, and leaves the whole loop state (smoother position and
every latch) unchanged; any run of consecutive no-hand frames does the
same, keeping the cursor at the last smoothed value. -/
theorem c6_no_hand_preserves_state (cfg : Config) (s : LoopState) :
    processFrame cfg s none = FrameResult.next s [] ⟨[], []⟩ ∧
    ∀ n : ℕ, run cfg s (List.replicate n none) =
      ⟨[], List.replicate n ⟨[], []⟩, false, s⟩ := by
  refine ⟨rfl, ?_⟩
  intro n
  induction n with
  | zero => rfl
  | succ k ih =>
    rw [List.replicate_succ, run_cons_next (processFrame_none cfg s), ih,
      List.replicate_succ]
    simp

/-! ## C8: the fingertip map (code bug) -/

lemma intInLandmarks_false (i : ℕ) (lms : List Landmark) :
    intInLandmarks i lms = false := by
  induction lms with
  | nil => rfl
  | cons a as ih => simp [intInLandmarks, intEqLandmark] at ih ⊢

/-- C8 (evaluating the buggy code): because the guard `if i in lm`
tests whether the integer `i` equals one of the landmark objects, it is
false for every tip index, so the fingertip map pushed to the overlay
is empty on every hand frame — not the four-entry map the claim
specifies. -/
theorem c8_fingertip_map_is_empty (cfg : Config) (h : Hand) :
    tipsFor cfg h = [] ∧ intInLandmarks 8 (handList h) = false := by
  refine ⟨?_, intInLandmarks_false 8 (handList h)⟩
  rw [tipsFor]
  simp [intInLandmarks_false]

/-! ## C5: the cursor smoother -/

lemma smoothStep_eq_floor {p r : ℤ} (hp : 0 ≤ p) (hr : 0 ≤ r) :
    smoothStep p r = ⌊(p : ℚ) + SMOOTH_ALPHA * ((r : ℚ) - (p : ℚ))⌋ := by
  rw [smoothStep]
  apply pyInt_of_nonneg
  have hp' : (0 : ℚ) ≤ (p : ℚ) := by exact_mod_cast hp
  have hr' : (0 : ℚ) ≤ (r : ℚ) := by exact_mod_cast hr
  have hrew : (p : ℚ) + SMOOTH_ALPHA * ((r : ℚ) - (p : ℚ))
      = 7/10 * (p : ℚ) + 3/10 * (r : ℚ) := by
    rw [SMOOTH_ALPHA]; ring
  rw [hrew]
  linarith

lemma smoothStep_fix {p r : ℤ} (hp : 0 ≤ p) (hr : 0 ≤ r)
    (h1 : r - 3 ≤ p) (h2 : p ≤ r) : smoothStep p r = p := by
  rw [smoothStep_eq_floor hp hr, SMOOTH_ALPHA]
  have c1 : ((r : ℚ) - p) ≤ 3 := by exact_mod_cast (by omega : r - p ≤ (3 : ℤ))
  have c2 : (0 : ℚ) ≤ (r : ℚ) - p := by exact_mod_cast (by omega : (0 : ℤ) ≤ r - p)
  rw [Int.floor_eq_iff (α := ℚ)]
  constructor
  · linarith
  · linarith

lemma smoothStep_climb {p r : ℤ} (hp : 0 ≤ p) (hr : 0 ≤ r)
    (h4 : 4 ≤ r - p) : p + 1 ≤ smoothStep p r ∧ smoothStep p r ≤ r - 1 := by
  rw [smoothStep_eq_floor hp hr, SMOOTH_ALPHA]
  have c1 : (4 : ℚ) ≤ (r : ℚ) - p := by exact_mod_cast h4
  constructor
  · apply Int.le_floor.mpr
    push_cast
    linarith
  · have hlt : (p : ℚ) + 3/10 * ((r : ℚ) - p) < (r : ℚ) := by linarith
    have := Int.floor_lt.mpr (by linarith :
      (p : ℚ) + 3/10 * ((r : ℚ) - p) < ((r : ℤ) : ℚ))
    omega

lemma smoothStep_descend {p r : ℤ} (hp : 0 ≤ p) (hr : 0 ≤ r)
    (hgt : r < p) : r ≤ smoothStep p r ∧ smoothStep p r ≤ p - 1 := by
  rw [smoothStep_eq_floor hp hr, SMOOTH_ALPHA]
  have c1 : (r : ℚ) < (p : ℚ) := by exact_mod_cast hgt
  constructor
  · apply Int.le_floor.mpr
    linarith
  · have := Int.floor_lt.mpr (by linarith :
      (p : ℚ) + 3/10 * ((r : ℚ) - p) < ((p : ℤ) : ℚ))
    omega

lemma smoothStep_reaches_fix (g : ℕ) : ∀ p r : ℤ, 0 ≤ p → 0 ≤ r →
    (r - p).natAbs ≤ g →
    ∃ n q, (fun z => smoothStep z r)^[n] p = q ∧ smoothStep q r = q ∧
      r - 3 ≤ q ∧ q ≤ r := by
  induction g with
  | zero =>
    intro p r hp hr hg
    have hpr : p = r := by omega
    subst hpr
    exact ⟨0, p, rfl, smoothStep_fix hp hp (by omega) le_rfl, by omega, le_rfl⟩
  | succ k ih =>
    intro p r hp hr hg
    by_cases hband : r - 3 ≤ p ∧ p ≤ r
    · exact ⟨0, p, rfl, smoothStep_fix hp hr hband.1 hband.2, hband.1, hband.2⟩
    · by_cases hlt : p < r
      · have h4 : 4 ≤ r - p := by omega
        obtain ⟨hz1, hz2⟩ := smoothStep_climb hp hr h4
        obtain ⟨n, q, hit, hfix, hb1, hb2⟩ :=
          ih (smoothStep p r) r (by omega) hr (by omega)
        exact ⟨n + 1, q, by rw [Function.iterate_succ_apply]; exact hit,
          hfix, hb1, hb2⟩
      · have hgt : r < p := by omega
        obtain ⟨hz1, hz2⟩ := smoothStep_descend hp hr hgt
        obtain ⟨n, q, hit, hfix, hb1, hb2⟩ :=
          ih (smoothStep p r) r (by omega) hr (by omega)
        exact ⟨n + 1, q, by rw [Function.iterate_succ_apply]; exact hit,
          hfix, hb1, hb2⟩

/-- C5 counterexample: with truncation to integer, a single smoothing
step does NOT always move the value by exactly the α = 0.30 fraction of
the gap (from 0 toward raw 1 it moves by 0, not 0.3), and repeated
identical input does not always converge to the raw value (from 0,
raw 3 is a fixed point at distance 3). -/
theorem c5_counterexample :
    smoothStep 0 1 = 0 ∧
    ((smoothStep 0 1 : ℚ) - (0 : ℚ)) ≠ SMOOTH_ALPHA * ((1 : ℚ) - (0 : ℚ)) ∧
    smoothStep 0 3 = 0 := by
  have h1 : smoothStep 0 1 = 0 := by
    rw [smoothStep, pyInt]
    norm_num [SMOOTH_ALPHA]
  have h3 : smoothStep 0 3 = 0 := by
    rw [smoothStep, pyInt]
    norm_num [SMOOTH_ALPHA]
  refine ⟨h1, ?_, h3⟩
  rw [h1, SMOOTH_ALPHA]
  norm_num

/-- C5 (amended): the smoother computes `int(prev + 0.30·(raw - prev))`
per axis; before truncation the update moves exactly the α fraction of
the gap, and the truncation error lies in (-1, 0]; iterating with a
fixed raw input reaches, in finitely many steps, a fixed point within
3 units below the raw value (exact convergence is not guaranteed:
every integer in `[raw-3, raw]` is a fixed point); from state (0,0) the
raw input (960, 540) produces the first smoothed output (288, 162). -/
theorem c5_smoother (p r : ℤ) (hp : 0 ≤ p) (hr : 0 ≤ r) :
    smoothStep p r = pyInt ((p : ℚ) + SMOOTH_ALPHA * ((r : ℚ) - (p : ℚ))) ∧
    ((p : ℚ) + SMOOTH_ALPHA * ((r : ℚ) - (p : ℚ))) - (p : ℚ)
      = SMOOTH_ALPHA * ((r : ℚ) - (p : ℚ)) ∧
    ((smoothStep p r : ℚ) - ((p : ℚ) + SMOOTH_ALPHA * ((r : ℚ) - (p : ℚ))) ≤ 0 ∧
     (-1 : ℚ) < (smoothStep p r : ℚ) - ((p : ℚ) + SMOOTH_ALPHA * ((r : ℚ) - (p : ℚ)))) ∧
    (∃ n q, (fun z => smoothStep z r)^[n] p = q ∧ smoothStep q r = q ∧
      r - 3 ≤ q ∧ q ≤ r) ∧
    smoothStep 0 960 = 288 ∧ smoothStep 0 540 = 162 := by
  refine ⟨rfl, by ring, ?_, ?_, smoothStep_0_960, smoothStep_0_540⟩
  · rw [smoothStep_eq_floor hp hr]
    constructor
    · have := Int.floor_le ((p : ℚ) + SMOOTH_ALPHA * ((r : ℚ) - (p : ℚ)))
      linarith
    · have := Int.lt_floor_add_one ((p : ℚ) + SMOOTH_ALPHA * ((r : ℚ) - (p : ℚ)))
      push_cast at this ⊢
      linarith
  · exact smoothStep_reaches_fix (r - p).natAbs p r hp hr le_rfl

/-- Witness for C5 (amended) at `p = 0`, `r = 3`. -/
theorem c5_witness :
    smoothStep 0 3 = pyInt ((0 : ℚ) + SMOOTH_ALPHA * ((3 : ℚ) - (0 : ℚ))) ∧
    ((0 : ℚ) + SMOOTH_ALPHA * ((3 : ℚ) - (0 : ℚ))) - (0 : ℚ)
      = SMOOTH_ALPHA * ((3 : ℚ) - (0 : ℚ)) ∧
    ((smoothStep 0 3 : ℚ) - ((0 : ℚ) + SMOOTH_ALPHA * ((3 : ℚ) - (0 : ℚ))) ≤ 0 ∧
     (-1 : ℚ) < (smoothStep 0 3 : ℚ) - ((0 : ℚ) + SMOOTH_ALPHA * ((3 : ℚ) - (0 : ℚ)))) ∧
    (∃ n q, (fun z => smoothStep z 3)^[n] 0 = q ∧ smoothStep q 3 = q ∧
      (3 : ℤ) - 3 ≤ q ∧ q ≤ 3) ∧
    smoothStep 0 960 = 288 ∧ smoothStep 0 540 = 162 :=
  c5_smoother 0 3 (by norm_num) (by norm_num)

/-! ## C1: the exit gesture -/

/-- C1: with the `all_fingers_were_down` latch clear (as it is in every
reachable state), a frame whose hand satisfies all four strong
conditions terminates the process then and there — the run stops, so
exactly one terminate outcome is ever produced and any further frames
(in particular a second consecutive qualifying frame) are never
processed; a frame whose hand does not qualify does not terminate and
leaves the latch clear. -/
theorem c1_exit_gesture_edge (cfg : Config) (s : LoopState) (h : Hand)
    (rest : List (Option Hand)) (hl : s.all_fingers_were_down = false) :
    (qualifiesB h = true →
      processFrame cfg s (some h) =
        FrameResult.terminated
          [MouseAction.moveTo (smoothStep s.prev_x (cursorX cfg h))
            (smoothStep s.prev_y (cursorY cfg h))] ∧
      run cfg s (some h :: rest) =
        ⟨[MouseAction.moveTo (smoothStep s.prev_x (cursorX cfg h))
            (smoothStep s.prev_y (cursorY cfg h))], [], true, s⟩) ∧
    (qualifiesB h = false →
      ∃ s2 a out, processFrame cfg s (some h) = FrameResult.next s2 a out ∧
        s2.all_fingers_were_down = false) := by
  constructor
  · intro hq
    have hp := processFrame_exit cfg hq hl
    exact ⟨hp, run_cons_term hp rest⟩
  · intro hq
    exact ⟨_, _, _, processFrame_cont cfg (Or.inl hq), hq⟩

/-- Witness for C1: from the initial state, a qualifying frame followed
by a second qualifying frame yields exactly one terminated run whose
only action is the single cursor move of the first frame. -/
theorem c1_witness :
    run cfg0 initState [some exitHand, some exitHand] =
      ⟨[MouseAction.moveTo 288 162], [], true, initState⟩ := by
  have hmain :=
    ((c1_exit_gesture_edge cfg0 initState exitHand [some exitHand] rfl).1
      qualifiesB_exitHand).2
  rw [hmain]
  have hx : smoothStep initState.prev_x (cursorX cfg0 exitHand) = 288 := by
    rw [show initState.prev_x = 0 from rfl, cursorX_exitHand, smoothStep_0_960]
  have hy : smoothStep initState.prev_y (cursorY cfg0 exitHand) = 162 := by
    rw [show initState.prev_y = 0 from rfl, cursorY_exitHand, smoothStep_0_540]
  rw [hx, hy]

/-! ## Counting mouse actions -/

lemma grab_count_pressL (d g : Bool) :
    (grabStep d g).1.count (MouseAction.press MButton.left)
      = if d && !g then 1 else 0 := by
  cases d <;> cases g <;> rfl

lemma grab_count_releaseL (d g : Bool) :
    (grabStep d g).1.count (MouseAction.release MButton.left)
      = if !d && g then 1 else 0 := by
  cases d <;> cases g <;> rfl

lemma grab_count_pressR (d g : Bool) :
    (grabStep d g).1.count (MouseAction.press MButton.right) = 0 := by
  cases d <;> cases g <;> rfl

lemma grab_count_releaseR (d g : Bool) :
    (grabStep d g).1.count (MouseAction.release MButton.right) = 0 := by
  cases d <;> cases g <;> rfl

lemma click_count_press (b : MButton) (d w : Bool) :
    (clickStep b d w).1.count (MouseAction.press b)
      = if d && !w then 1 else 0 := by
  cases b <;> cases d <;> cases w <;> rfl

lemma click_count_release (b : MButton) (d w : Bool) :
    (clickStep b d w).1.count (MouseAction.release b)
      = if d && !w then 1 else 0 := by
  cases b <;> cases d <;> cases w <;> rfl

lemma clickR_count_pressL (d w : Bool) :
    (clickStep MButton.right d w).1.count (MouseAction.press MButton.left)
      = 0 := by
  cases d <;> cases w <;> rfl

lemma clickR_count_releaseL (d w : Bool) :
    (clickStep MButton.right d w).1.count (MouseAction.release MButton.left)
      = 0 := by
  cases d <;> cases w <;> rfl

lemma clickL_count_pressR (d w : Bool) :
    (clickStep MButton.left d w).1.count (MouseAction.press MButton.right)
      = 0 := by
  cases d <;> cases w <;> rfl

lemma clickL_count_releaseR (d w : Bool) :
    (clickStep MButton.left d w).1.count (MouseAction.release MButton.right)
      = 0 := by
  cases d <;> cases w <;> rfl

lemma qualifiesB_eq_false_of_middle_up {h : Hand}
    (hm : middleDown h = false) : qualifiesB h = false := by
  rw [qualifiesB]
  have hmsd : middleStrongDown h = false := by
    rw [middleDown] at hm
    rw [middleStrongDown]
    simp only [decide_eq_false_iff_not] at hm ⊢
    have hth : (0 : ℚ) < CURL_THRESHOLD := by rw [CURL_THRESHOLD]; norm_num
    intro hcon
    exact hm (by linarith)
  simp [hmsd]

lemma run_single {cfg : Config} {s : LoopState} {h : Hand}
    (hq : qualifiesB h = false) :
    run cfg s [some h] =
      ⟨frameActs cfg s h, [⟨tipsFor cfg h, gesturesFor h⟩], false,
       nextState cfg s h⟩ := by
  rw [show [some h] = some h :: ([] : List (Option Hand)) from rfl,
    run_cons_next (processFrame_cont cfg (Or.inl hq)), run_nil]
  simp

/-! ## C2: the middle-finger grab -/

lemma run_grab_held (cfg : Config) (hs : List Hand) :
    ∀ s : LoopState, s.middle_grabbed = true →
      (∀ h ∈ hs, middleDown h = true ∧ pinkyDown h = false ∧
        qualifiesB h = false) →
      (run cfg s (hs.map some)).actions.count (MouseAction.press MButton.left)
          = 0 ∧
      (run cfg s (hs.map some)).actions.count (MouseAction.release MButton.left)
          = 0 ∧
      (run cfg s (hs.map some)).terminated = false ∧
      (run cfg s (hs.map some)).final.middle_grabbed = true := by
  induction hs with
  | nil =>
    intro s hg _
    simp [run_nil, hg]
  | cons h t ih =>
    intro s hg hall
    obtain ⟨hmd, hpd, hq⟩ := hall h (List.mem_cons_self h t)
    have hall2 : ∀ h2 ∈ t, middleDown h2 = true ∧ pinkyDown h2 = false ∧
        qualifiesB h2 = false := fun h2 hm => hall h2 (List.mem_cons_of_mem h hm)
    have hns : (nextState cfg s h).middle_grabbed = true := by
      simp [nextState, hmd, grabStep]
    obtain ⟨c1, c2, c3, c4⟩ := ih (nextState cfg s h) hns hall2
    rw [List.map_cons, run_cons_next (processFrame_cont cfg (Or.inl hq))]
    refine ⟨?_, ?_, c3, c4⟩
    · simp [frameActs, List.count_cons, List.count_append, hmd, hpd, hg,
        grab_count_pressL, click_count_press, clickR_count_pressL, c1]
    · simp [frameActs, List.count_cons, List.count_append, hmd, hpd, hg,
        grab_count_releaseL, click_count_release, clickR_count_releaseL, c2]

/-- C2: the middle-finger grab is level-triggered.  With the grab latch
clear, any nonempty sequence of hand frames with the middle finger down
(pinky up, exit gesture not matched) emits exactly one `press left` and
no `release left`, leaving the latch set; one further middle-up frame
then emits exactly one `release left` and clears the latch; and a
subsequent middle-down frame presses again (the latch re-arms). -/
theorem c2_grab_level_triggered (cfg : Config) (s : LoopState)
    (hs : List Hand) (hup hdown2 : Hand)
    (hg : s.middle_grabbed = false) (hne : hs ≠ [])
    (hall : ∀ h ∈ hs, middleDown h = true ∧ pinkyDown h = false ∧
      qualifiesB h = false)
    (hu1 : middleDown hup = false) (hu2 : pinkyDown hup = false)
    (hd1 : middleDown hdown2 = true) (hd2 : pinkyDown hdown2 = false)
    (hd3 : qualifiesB hdown2 = false) :
    ((run cfg s (hs.map some)).actions.count (MouseAction.press MButton.left)
        = 1 ∧
     (run cfg s (hs.map some)).actions.count (MouseAction.release MButton.left)
        = 0 ∧
     (run cfg s (hs.map some)).final.middle_grabbed = true) ∧
    ((run cfg s (hs.map some ++ [some hup])).actions.count
        (MouseAction.release MButton.left) = 1 ∧
     (run cfg s (hs.map some ++ [some hup])).final.middle_grabbed = false) ∧
    (run cfg s (hs.map some ++ [some hup, some hdown2])).actions.count
        (MouseAction.press MButton.left) = 2 := by
  obtain ⟨h0, t, rfl⟩ := List.exists_cons_of_ne_nil hne
  obtain ⟨hmd0, hpd0, hq0⟩ := hall h0 (List.mem_cons_self h0 t)
  have hall2 : ∀ h2 ∈ t, middleDown h2 = true ∧ pinkyDown h2 = false ∧
      qualifiesB h2 = false := fun h2 hm => hall h2 (List.mem_cons_of_mem h0 hm)
  have hnqup : qualifiesB hup = false := qualifiesB_eq_false_of_middle_up hu1
  have hns0 : (nextState cfg s h0).middle_grabbed = true := by
    simp [nextState, hmd0, grabStep]
  obtain ⟨t1, t2, t3, t4⟩ := run_grab_held cfg t (nextState cfg s h0) hns0 hall2
  have e1 : run cfg s ((h0 :: t).map some) =
      ⟨frameActs cfg s h0 ++ (run cfg (nextState cfg s h0) (t.map some)).actions,
       ⟨tipsFor cfg h0, gesturesFor h0⟩ ::
         (run cfg (nextState cfg s h0) (t.map some)).outputs,
       (run cfg (nextState cfg s h0) (t.map some)).terminated,
       (run cfg (nextState cfg s h0) (t.map some)).final⟩ := by
    rw [List.map_cons, run_cons_next (processFrame_cont cfg (Or.inl hq0))]
  have p1press : (run cfg s ((h0 :: t).map some)).actions.count
      (MouseAction.press MButton.left) = 1 := by
    rw [e1]
    simp [frameActs, List.count_cons, List.count_append, hmd0, hpd0, hg,
      grab_count_pressL, click_count_press, clickR_count_pressL, t1]
  have p1rel : (run cfg s ((h0 :: t).map some)).actions.count
      (MouseAction.release MButton.left) = 0 := by
    rw [e1]
    simp [frameActs, List.count_cons, List.count_append, hmd0, hpd0, hg,
      grab_count_releaseL, click_count_release, clickR_count_releaseL, t2]
  have p1term : (run cfg s ((h0 :: t).map some)).terminated = false := by
    rw [e1]
    exact t3
  have p1fin : (run cfg s ((h0 :: t).map some)).final.middle_grabbed = true := by
    rw [e1]
    exact t4
  refine ⟨⟨p1press, p1rel, p1fin⟩, ?_, ?_⟩
  all_goals simp only [List.map_cons] at p1press p1rel p1fin
  · -- phase 2: one further middle-up frame
    rw [run_append_of_not_term cfg ((h0 :: t).map some) s [some hup] p1term]
    constructor
    · rw [run_single hnqup]
      simp [frameActs, List.count_cons, List.count_append, hu1, hu2, p1fin,
        grab_count_releaseL, click_count_release, clickR_count_releaseL, p1rel]
    · rw [run_single hnqup]
      simp [nextState, hu1, grabStep]
  · -- phase 3: press again on a later middle-down frame
    rw [run_append_of_not_term cfg ((h0 :: t).map some) s [some hup, some hdown2]
      p1term]
    have e3 : run cfg (run cfg s ((h0 :: t).map some)).final
        [some hup, some hdown2] =
        ⟨frameActs cfg (run cfg s ((h0 :: t).map some)).final hup ++
           (run cfg (nextState cfg (run cfg s ((h0 :: t).map some)).final hup)
             [some hdown2]).actions,
         ⟨tipsFor cfg hup, gesturesFor hup⟩ ::
           (run cfg (nextState cfg (run cfg s ((h0 :: t).map some)).final hup)
             [some hdown2]).outputs,
         (run cfg (nextState cfg (run cfg s ((h0 :: t).map some)).final hup)
           [some hdown2]).terminated,
         (run cfg (nextState cfg (run cfg s ((h0 :: t).map some)).final hup)
           [some hdown2]).final⟩ := by
      rw [show [some hup, some hdown2] = some hup :: [some hdown2] from rfl,
        run_cons_next (processFrame_cont cfg (Or.inl hnqup))]
    rw [e3, run_single hd3]
    have hm2 : (nextState cfg (run cfg s ((h0 :: t).map some)).final hup).middle_grabbed
        = false := by
      simp [nextState, hu1, grabStep]
    simp only [List.map_cons] at hm2
    simp [frameActs, List.count_cons, List.count_append, hu1, hu2, hd1, hd2,
      p1fin, hm2, grab_count_pressL, click_count_press, clickR_count_pressL,
      p1press]

/-- Witness for C2: scenario B — three middle-down frames (tip y = 0.6,
pip y = 0.5), then a middle-up frame, then middle down again. -/
theorem c2_witness :
    ((run cfg0 initState
        ([middleDownHand, middleDownHand, middleDownHand].map some)).actions.count
        (MouseAction.press MButton.left) = 1 ∧
     (run cfg0 initState
        ([middleDownHand, middleDownHand, middleDownHand].map some)).actions.count
        (MouseAction.release MButton.left) = 0 ∧
     (run cfg0 initState
        ([middleDownHand, middleDownHand, middleDownHand].map some)).final.middle_grabbed
        = true) ∧
    ((run cfg0 initState
        ([middleDownHand, middleDownHand, middleDownHand].map some
          ++ [some flatHand])).actions.count
        (MouseAction.release MButton.left) = 1 ∧
     (run cfg0 initState
        ([middleDownHand, middleDownHand, middleDownHand].map some
          ++ [some flatHand])).final.middle_grabbed = false) ∧
    (run cfg0 initState
        ([middleDownHand, middleDownHand, middleDownHand].map some
          ++ [some flatHand, some middleDownHand])).actions.count
        (MouseAction.press MButton.left) = 2 :=
  c2_grab_level_triggered cfg0 initState
    [middleDownHand, middleDownHand, middleDownHand] flatHand middleDownHand
    rfl (by simp)
    (by
      intro h hm
      simp only [List.mem_cons, List.not_mem_nil, or_false] at hm
      rcases hm with rfl | rfl | rfl <;>
        exact ⟨middleDownHand_eval.1, middleDownHand_eval.2.2.1,
          middleDownHand_eval.2.2.2⟩)
    flatHand_eval.1 flatHand_eval.2.2.1
    middleDownHand_eval.1 middleDownHand_eval.2.2.1 middleDownHand_eval.2.2.2

/-! ## Pairing of right-button actions -/

lemma grab_snd (d g : Bool) : (grabStep d g).2 = d := by
  cases d <;> cases g <;> rfl

lemma click_snd (b : MButton) (d w : Bool) : (clickStep b d w).2 = d := by
  cases d <;> cases w <;> rfl

lemma rightPaired_move (x y : ℤ) (rest : List MouseAction) :
    rightPaired (MouseAction.moveTo x y :: rest) = rightPaired rest := rfl

lemma rightPaired_pressL (rest : List MouseAction) :
    rightPaired (MouseAction.press MButton.left :: rest) = rightPaired rest := rfl

lemma rightPaired_releaseL (rest : List MouseAction) :
    rightPaired (MouseAction.release MButton.left :: rest) = rightPaired rest := rfl

lemma rightPaired_releaseR (rest : List MouseAction) :
    rightPaired (MouseAction.release MButton.right :: rest) = rightPaired rest := rfl

lemma rightPaired_pressR_releaseR (rest : List MouseAction) :
    rightPaired (MouseAction.press MButton.right ::
      MouseAction.release MButton.right :: rest) = rightPaired rest := rfl

lemma rightPaired_grab_append (d g : Bool) (rest : List MouseAction) :
    rightPaired ((grabStep d g).1 ++ rest) = rightPaired rest := by
  cases d <;> cases g <;>
    simp [grabStep, rightPaired_pressL, rightPaired_releaseL]

lemma rightPaired_clickR_append (d w : Bool) (rest : List MouseAction) :
    rightPaired ((clickStep MButton.right d w).1 ++ rest) = rightPaired rest := by
  cases d <;> cases w <;>
    simp [clickStep, rightPaired_pressR_releaseR]

lemma rightPaired_clickL_append (d w : Bool) (rest : List MouseAction) :
    rightPaired ((clickStep MButton.left d w).1 ++ rest) = rightPaired rest := by
  cases d <;> cases w <;>
    simp [clickStep, rightPaired_pressL, rightPaired_releaseL]

lemma rightPaired_frameActs (cfg : Config) (s : LoopState) (h : Hand)
    (rest : List MouseAction) :
    rightPaired (frameActs cfg s h ++ rest) = rightPaired rest := by
  rw [frameActs]
  simp only [List.cons_append, List.append_assoc]
  rw [rightPaired_move, rightPaired_grab_append, rightPaired_clickR_append,
    rightPaired_clickL_append]

lemma run_rightPaired (cfg : Config) (fs : List (Option Hand)) :
    ∀ s : LoopState, rightPaired (run cfg s fs).actions = true := by
  induction fs with
  | nil => intro s; rfl
  | cons f t ih =>
    intro s
    cases f with
    | none =>
      rw [run_cons_next (processFrame_none cfg s)]
      simpa using ih s
    | some h =>
      by_cases hq : qualifiesB h = true
      · by_cases hl : s.all_fingers_were_down = false
        · rw [run_cons_term (processFrame_exit cfg hq hl)]
          rfl
        · have hl2 : s.all_fingers_were_down = true := by
            revert hl
            cases s.all_fingers_were_down <;> simp
          rw [run_cons_next (processFrame_cont cfg (Or.inr hl2))]
          simpa [rightPaired_frameActs] using ih (nextState cfg s h)
      · have hq2 : qualifiesB h = false := by
          revert hq
          cases qualifiesB h <;> simp
        rw [run_cons_next (processFrame_cont cfg (Or.inl hq2))]
        simpa [rightPaired_frameActs] using ih (nextState cfg s h)

/-! ## C3: ring and pinky clicks -/

lemma run_ring_clicks (cfg : Config) (hs : List Hand) :
    ∀ s : LoopState, (∀ h ∈ hs, qualifiesB h = false) →
      (run cfg s (hs.map some)).actions.count (MouseAction.press MButton.right)
        = edgeCount s.ring_was_down (hs.map ringDown) ∧
      (run cfg s (hs.map some)).actions.count (MouseAction.release MButton.right)
        = edgeCount s.ring_was_down (hs.map ringDown) ∧
      (run cfg s (hs.map some)).terminated = false := by
  induction hs with
  | nil =>
    intro s _
    simp [run_nil, edgeCount]
  | cons h t ih =>
    intro s hall
    have hq := hall h (List.mem_cons_self h t)
    have hall2 : ∀ h2 ∈ t, qualifiesB h2 = false :=
      fun h2 hm => hall h2 (List.mem_cons_of_mem h hm)
    obtain ⟨c1, c2, c3⟩ := ih (nextState cfg s h) hall2
    have hnsr : (nextState cfg s h).ring_was_down = ringDown h := by
      simp [nextState, click_snd]
    rw [hnsr] at c1 c2
    rw [List.map_cons, run_cons_next (processFrame_cont cfg (Or.inl hq))]
    refine ⟨?_, ?_, c3⟩
    · cases hrd : ringDown h <;> cases hw : s.ring_was_down <;>
        rw [hrd] at c1 <;>
        simp [frameActs, List.count_cons, List.count_append, grab_count_pressR,
          click_count_press, clickL_count_pressR, hrd, hw, c1, edgeCount]
    · cases hrd : ringDown h <;> cases hw : s.ring_was_down <;>
        rw [hrd] at c2 <;>
        simp [frameActs, List.count_cons, List.count_append, grab_count_releaseR,
          click_count_release, clickL_count_releaseR, hrd, hw, c2, edgeCount]

lemma run_pinky_clicks (cfg : Config) (hs : List Hand) :
    ∀ s : LoopState, s.middle_grabbed = false →
      (∀ h ∈ hs, qualifiesB h = false ∧ middleDown h = false) →
      (run cfg s (hs.map some)).actions.count (MouseAction.press MButton.left)
        = edgeCount s.pinky_was_down (hs.map pinkyDown) ∧
      (run cfg s (hs.map some)).actions.count (MouseAction.release MButton.left)
        = edgeCount s.pinky_was_down (hs.map pinkyDown) := by
  induction hs with
  | nil =>
    intro s _ _
    simp [run_nil, edgeCount]
  | cons h t ih =>
    intro s hg hall
    obtain ⟨hq, hmd⟩ := hall h (List.mem_cons_self h t)
    have hall2 : ∀ h2 ∈ t, qualifiesB h2 = false ∧ middleDown h2 = false :=
      fun h2 hm => hall h2 (List.mem_cons_of_mem h hm)
    have hg2 : (nextState cfg s h).middle_grabbed = false := by
      simp [nextState, grab_snd, hmd]
    obtain ⟨c1, c2⟩ := ih (nextState cfg s h) hg2 hall2
    have hnsp : (nextState cfg s h).pinky_was_down = pinkyDown h := by
      simp [nextState, click_snd]
    rw [hnsp] at c1 c2
    rw [List.map_cons, run_cons_next (processFrame_cont cfg (Or.inl hq))]
    constructor
    · cases hpd : pinkyDown h <;> cases hw : s.pinky_was_down <;>
        rw [hpd] at c1 <;>
        simp [frameActs, List.count_cons, List.count_append, grab_count_pressL,
          click_count_press, clickR_count_pressL, hpd, hw, hmd, hg, c1, edgeCount]
    · cases hpd : pinkyDown h <;> cases hw : s.pinky_was_down <;>
        rw [hpd] at c2 <;>
        simp [frameActs, List.count_cons, List.count_append, grab_count_releaseL,
          click_count_release, clickR_count_releaseL, hpd, hw, hmd, hg, c2,
          edgeCount]

/-- C3: the ring (right button) and pinky (left button) clicks are
edge-triggered one-shots.  Over any hand-frame sequence that never
matches the exit gesture, the number of `press right` and of
`release right` actions both equal the number of false-to-true edges of
the ring-down sequence (relative to the incoming latch), and every
`press right` is immediately followed by `release right`; with the grab
idle (middle up throughout, grab latch clear), the `press left` and
`release left` counts likewise equal the number of false-to-true edges
of the pinky-down sequence.  In particular a down-down-up-down pattern
has two edges, hence exactly two clicks. -/
theorem c3_click_edge_one_shot (cfg : Config) (s : LoopState) (hs : List Hand)
    (hq : ∀ h ∈ hs, qualifiesB h = false) :
    ((run cfg s (hs.map some)).actions.count (MouseAction.press MButton.right)
        = edgeCount s.ring_was_down (hs.map ringDown) ∧
     (run cfg s (hs.map some)).actions.count (MouseAction.release MButton.right)
        = edgeCount s.ring_was_down (hs.map ringDown) ∧
     rightPaired (run cfg s (hs.map some)).actions = true) ∧
    (s.middle_grabbed = false → (∀ h ∈ hs, middleDown h = false) →
      (run cfg s (hs.map some)).actions.count (MouseAction.press MButton.left)
        = edgeCount s.pinky_was_down (hs.map pinkyDown) ∧
      (run cfg s (hs.map some)).actions.count (MouseAction.release MButton.left)
        = edgeCount s.pinky_was_down (hs.map pinkyDown)) := by
  obtain ⟨r1, r2, _⟩ := run_ring_clicks cfg hs s hq
  refine ⟨⟨r1, r2, run_rightPaired cfg (hs.map some) s⟩, ?_⟩
  intro hg hmid
  exact run_pinky_clicks cfg hs s hg
    (fun h hm => ⟨hq h hm, hmid h hm⟩)

/-- Witness for C3: pattern down, down, up, down on the ring finger
gives two false-to-true edges, hence exactly two right clicks. -/
theorem c3_witness :
    (((run cfg0 initState
          ([ringDownHand, ringDownHand, flatHand, ringDownHand].map some)).actions.count
          (MouseAction.press MButton.right)
        = edgeCount initState.ring_was_down
            ([ringDownHand, ringDownHand, flatHand, ringDownHand].map ringDown) ∧
      (run cfg0 initState
          ([ringDownHand, ringDownHand, flatHand, ringDownHand].map some)).actions.count
          (MouseAction.release MButton.right)
        = edgeCount initState.ring_was_down
            ([ringDownHand, ringDownHand, flatHand, ringDownHand].map ringDown) ∧
      rightPaired (run cfg0 initState
          ([ringDownHand, ringDownHand, flatHand, ringDownHand].map some)).actions
        = true) ∧
     (initState.middle_grabbed = false →
      (∀ h ∈ [ringDownHand, ringDownHand, flatHand, ringDownHand],
        middleDown h = false) →
      (run cfg0 initState
          ([ringDownHand, ringDownHand, flatHand, ringDownHand].map some)).actions.count
          (MouseAction.press MButton.left)
        = edgeCount initState.pinky_was_down
            ([ringDownHand, ringDownHand, flatHand, ringDownHand].map pinkyDown) ∧
      (run cfg0 initState
          ([ringDownHand, ringDownHand, flatHand, ringDownHand].map some)).actions.count
          (MouseAction.release MButton.left)
        = edgeCount initState.pinky_was_down
            ([ringDownHand, ringDownHand, flatHand, ringDownHand].map pinkyDown))) ∧
    edgeCount initState.ring_was_down
      ([ringDownHand, ringDownHand, flatHand, ringDownHand].map ringDown) = 2 := by
  constructor
  · exact c3_click_edge_one_shot cfg0 initState
      [ringDownHand, ringDownHand, flatHand, ringDownHand]
      (by
        intro h hm
        simp only [List.mem_cons, List.not_mem_nil, or_false] at hm
        rcases hm with rfl | rfl | rfl | rfl
        exacts [ringDownHand_eval.2.2.2, ringDownHand_eval.2.2.2,
          flatHand_eval.2.2.2, ringDownHand_eval.2.2.2])
  · simp [edgeCount, ringDownHand_eval.2.1, flatHand_eval.2.1, initState]

/-! ## C10: the right button is never left pressed -/

lemma processFrame_rightPaired (cfg : Config) (s : LoopState) (f : Option Hand) :
    rightPaired (processFrame cfg s f).actions = true := by
  cases f with
  | none => rfl
  | some h =>
    by_cases hq : qualifiesB h = true
    · by_cases hl : s.all_fingers_were_down = false
      · rw [processFrame_exit cfg hq hl]
        rfl
      · have hl2 : s.all_fingers_were_down = true := by
          revert hl
          cases s.all_fingers_were_down <;> simp
        rw [processFrame_cont cfg (Or.inr hl2)]
        have h2 := rightPaired_frameActs cfg s h []
        rw [List.append_nil] at h2
        exact h2
    · have hq2 : qualifiesB h = false := by
        revert hq
        cases qualifiesB h <;> simp
      rw [processFrame_cont cfg (Or.inl hq2)]
      have h2 := rightPaired_frameActs cfg s h []
      rw [List.append_nil] at h2
      exact h2

lemma run_left_balance (cfg : Config) (fs : List (Option Hand)) :
    ∀ s : LoopState, (run cfg s fs).terminated = false →
      ((run cfg s fs).actions.count (MouseAction.press MButton.left) : ℤ) -
        ((run cfg s fs).actions.count (MouseAction.release MButton.left) : ℤ) =
      (if (run cfg s fs).final.middle_grabbed = true then 1 else 0) -
        (if s.middle_grabbed = true then 1 else 0) := by
  induction fs with
  | nil =>
    intro s _
    simp [run_nil]
  | cons f t ih =>
    intro s hterm
    cases f with
    | none =>
      rw [run_cons_next (processFrame_none cfg s)] at hterm ⊢
      have hterm2 : (run cfg s t).terminated = false := hterm
      simpa using ih s hterm2
    | some h =>
      by_cases hq : qualifiesB h = true
      · by_cases hl : s.all_fingers_were_down = false
        · rw [run_cons_term (processFrame_exit cfg hq hl)] at hterm
          simp at hterm
        · have hl2 : s.all_fingers_were_down = true := by
            revert hl
            cases s.all_fingers_were_down <;> simp
          rw [run_cons_next (processFrame_cont cfg (Or.inr hl2))] at hterm ⊢
          have hterm2 : (run cfg (nextState cfg s h) t).terminated = false := hterm
          have bal := ih (nextState cfg s h) hterm2
          have hgr : (nextState cfg s h).middle_grabbed = middleDown h := by
            simp [nextState, grab_snd]
          rw [hgr] at bal
          cases hmd : middleDown h <;> cases hsg : s.middle_grabbed <;>
            cases hpd : pinkyDown h <;> cases hpw : s.pinky_was_down <;>
            (rw [hmd] at bal
             simp only [if_pos, if_neg, Bool.false_eq_true, if_false, if_true] at bal
             simp [frameActs, List.count_cons, List.count_append,
               grab_count_pressL, grab_count_releaseL, click_count_press,
               click_count_release, clickR_count_pressL, clickR_count_releaseL,
               hmd, hsg, hpd, hpw]
             omega)
      · have hq2 : qualifiesB h = false := by
          revert hq
          cases qualifiesB h <;> simp
        rw [run_cons_next (processFrame_cont cfg (Or.inl hq2))] at hterm ⊢
        have hterm2 : (run cfg (nextState cfg s h) t).terminated = false := hterm
        have bal := ih (nextState cfg s h) hterm2
        have hgr : (nextState cfg s h).middle_grabbed = middleDown h := by
          simp [nextState, grab_snd]
        rw [hgr] at bal
        cases hmd : middleDown h <;> cases hsg : s.middle_grabbed <;>
          cases hpd : pinkyDown h <;> cases hpw : s.pinky_was_down <;>
          (rw [hmd] at bal
           simp only [if_pos, if_neg, Bool.false_eq_true, if_false, if_true] at bal
           simp [frameActs, List.count_cons, List.count_append,
             grab_count_pressL, grab_count_releaseL, click_count_press,
             click_count_release, clickR_count_pressL, clickR_count_releaseL,
             hmd, hsg, hpd, hpw]
           omega)

/-- C10: every `press right` the pipeline emits is immediately followed
by `release right` — in a single frame's actions and through any run —
so the right button is never left pressed at a frame boundary; and over
any non-terminated run the surplus of `press left` over `release left`
equals the change of the grab latch, so only the middle-finger grab's
left press persists across frames. -/
theorem c10_right_button_never_held (cfg : Config) (s : LoopState)
    (fs : List (Option Hand)) (f : Option Hand) :
    rightPaired (processFrame cfg s f).actions = true ∧
    rightPaired (run cfg s fs).actions = true ∧
    ((run cfg s fs).terminated = false →
      ((run cfg s fs).actions.count (MouseAction.press MButton.left) : ℤ) -
        ((run cfg s fs).actions.count (MouseAction.release MButton.left) : ℤ) =
      (if (run cfg s fs).final.middle_grabbed = true then 1 else 0) -
        (if s.middle_grabbed = true then 1 else 0)) :=
  ⟨processFrame_rightPaired cfg s f, run_rightPaired cfg fs s,
    run_left_balance cfg fs s⟩

/-- Witness for C10 at a single pinky-click frame. -/
theorem c10_witness :
    rightPaired (processFrame cfg0 initState (some pinkyDownHand)).actions
      = true ∧
    rightPaired (run cfg0 initState [some pinkyDownHand]).actions = true ∧
    ((run cfg0 initState [some pinkyDownHand]).actions.count
        (MouseAction.press MButton.left) : ℤ) -
      ((run cfg0 initState [some pinkyDownHand]).actions.count
        (MouseAction.release MButton.left) : ℤ) =
    (if (run cfg0 initState [some pinkyDownHand]).final.middle_grabbed = true
      then 1 else 0) -
      (if initState.middle_grabbed = true then 1 else 0) := by
  have hterm : (run cfg0 initState [some pinkyDownHand]).terminated = false := by
    rw [run_single pinkyDownHand_eval.2.2.2]
  obtain ⟨w1, w2, w3⟩ := c10_right_button_never_held cfg0 initState
    [some pinkyDownHand] (some pinkyDownHand)
  exact ⟨w1, w2, w3 hterm⟩

/-! ## C9: the smoothed cursor stays on screen -/

lemma scaled_pyInt_bounds {v : ℚ} (hv0 : 0 ≤ v) (hv1 : v ≤ 1) {w : ℤ}
    (hw : 0 ≤ w) : 0 ≤ pyInt (v * w) ∧ pyInt (v * w) ≤ w := by
  have hw' : (0 : ℚ) ≤ (w : ℚ) := by exact_mod_cast hw
  have hq0 : (0 : ℚ) ≤ v * w := mul_nonneg hv0 hw'
  refine ⟨pyInt_nonneg hq0, pyInt_le_of_le hq0 ?_⟩
  calc v * (w : ℚ) ≤ 1 * w := mul_le_mul_of_nonneg_right hv1 hw'
    _ = w := one_mul _

lemma cursorX_bounds (cfg : Config) (h : Hand) (hw : 0 < cfg.scr_w) :
    0 ≤ cursorX cfg h ∧ cursorX cfg h ≤ cfg.scr_w :=
  scaled_pyInt_bounds (map_with_margin_nonneg (h 8).x CAMERA_MARGIN)
    (map_with_margin_le_one (h 8).x CAMERA_MARGIN) hw.le

lemma cursorY_bounds (cfg : Config) (h : Hand) (hh : 0 < cfg.scr_h) :
    0 ≤ cursorY cfg h ∧ cursorY cfg h ≤ cfg.scr_h :=
  scaled_pyInt_bounds (map_with_margin_nonneg (h 8).y CAMERA_MARGIN)
    (map_with_margin_le_one (h 8).y CAMERA_MARGIN) hh.le

lemma smoothStep_bounds {p r w : ℤ} (hp0 : 0 ≤ p) (hpw : p ≤ w)
    (hr0 : 0 ≤ r) (hrw : r ≤ w) :
    0 ≤ smoothStep p r ∧ smoothStep p r ≤ w := by
  have hp' : (0 : ℚ) ≤ (p : ℚ) := by exact_mod_cast hp0
  have hr' : (0 : ℚ) ≤ (r : ℚ) := by exact_mod_cast hr0
  have hpw' : (p : ℚ) ≤ (w : ℚ) := by exact_mod_cast hpw
  have hrw' : (r : ℚ) ≤ (w : ℚ) := by exact_mod_cast hrw
  have hval : (0 : ℚ) ≤ (p : ℚ) + SMOOTH_ALPHA * ((r : ℚ) - (p : ℚ)) := by
    rw [SMOOTH_ALPHA]
    nlinarith
  rw [smoothStep]
  refine ⟨pyInt_nonneg hval, pyInt_le_of_le hval ?_⟩
  rw [SMOOTH_ALPHA]
  nlinarith

lemma moveTo_not_mem_grab (x y : ℤ) (d g : Bool) :
    MouseAction.moveTo x y ∉ (grabStep d g).1 := by
  cases d <;> cases g <;> simp [grabStep]

lemma moveTo_not_mem_click (x y : ℤ) (b : MButton) (d w : Bool) :
    MouseAction.moveTo x y ∉ (clickStep b d w).1 := by
  cases d <;> cases w <;> simp [clickStep]

lemma run_cursor_bounds (cfg : Config) (hw : 0 < cfg.scr_w)
    (hh : 0 < cfg.scr_h) (fs : List (Option Hand)) :
    ∀ s : LoopState, 0 ≤ s.prev_x → s.prev_x ≤ cfg.scr_w →
      0 ≤ s.prev_y → s.prev_y ≤ cfg.scr_h →
      (∀ x y, MouseAction.moveTo x y ∈ (run cfg s fs).actions →
        0 ≤ x ∧ x ≤ cfg.scr_w ∧ 0 ≤ y ∧ y ≤ cfg.scr_h) ∧
      (0 ≤ (run cfg s fs).final.prev_x ∧
       (run cfg s fs).final.prev_x ≤ cfg.scr_w ∧
       0 ≤ (run cfg s fs).final.prev_y ∧
       (run cfg s fs).final.prev_y ≤ cfg.scr_h) := by
  induction fs with
  | nil =>
    intro s h1 h2 h3 h4
    rw [run_nil]
    exact ⟨by simp, h1, h2, h3, h4⟩
  | cons f t ih =>
    intro s h1 h2 h3 h4
    cases f with
    | none =>
      rw [run_cons_next (processFrame_none cfg s)]
      obtain ⟨m1, m2⟩ := ih s h1 h2 h3 h4
      exact ⟨by simpa using m1, m2⟩
    | some h =>
      obtain ⟨cx1, cx2⟩ := cursorX_bounds cfg h hw
      obtain ⟨cy1, cy2⟩ := cursorY_bounds cfg h hh
      obtain ⟨sx1, sx2⟩ := smoothStep_bounds h1 h2 cx1 cx2
      obtain ⟨sy1, sy2⟩ := smoothStep_bounds h3 h4 cy1 cy2
      by_cases hq : qualifiesB h = true
      · by_cases hl : s.all_fingers_were_down = false
        · rw [run_cons_term (processFrame_exit cfg hq hl)]
          refine ⟨?_, h1, h2, h3, h4⟩
          intro x y hm
          simp only [List.mem_singleton, MouseAction.moveTo.injEq] at hm
          obtain ⟨rfl, rfl⟩ := hm
          exact ⟨sx1, sx2, sy1, sy2⟩
        · have hl2 : s.all_fingers_were_down = true := by
            revert hl
            cases s.all_fingers_were_down <;> simp
          rw [run_cons_next (processFrame_cont cfg (Or.inr hl2))]
          obtain ⟨m1, m2⟩ := ih (nextState cfg s h) sx1 sx2 sy1 sy2
          refine ⟨?_, m2⟩
          intro x y hm
          simp only [frameActs, List.mem_cons, List.mem_append] at hm
          rcases hm with hm | hm
          rcases hm with hm | hm | hm | hm
          · obtain ⟨rfl, rfl⟩ := MouseAction.moveTo.injEq x y _ _ |>.mp hm
            exact ⟨sx1, sx2, sy1, sy2⟩
          · exact absurd hm (moveTo_not_mem_grab x y _ _)
          · exact absurd hm (moveTo_not_mem_click x y _ _ _)
          · exact absurd hm (moveTo_not_mem_click x y _ _ _)
          · exact m1 x y hm
      · have hq2 : qualifiesB h = false := by
          revert hq
          cases qualifiesB h <;> simp
        rw [run_cons_next (processFrame_cont cfg (Or.inl hq2))]
        obtain ⟨m1, m2⟩ := ih (nextState cfg s h) sx1 sx2 sy1 sy2
        refine ⟨?_, m2⟩
        intro x y hm
        simp only [frameActs, List.mem_cons, List.mem_append] at hm
        rcases hm with hm | hm
        rcases hm with hm | hm | hm | hm
        · obtain ⟨rfl, rfl⟩ := MouseAction.moveTo.injEq x y _ _ |>.mp hm
          exact ⟨sx1, sx2, sy1, sy2⟩
        · exact absurd hm (moveTo_not_mem_grab x y _ _)
        · exact absurd hm (moveTo_not_mem_click x y _ _ _)
        · exact absurd hm (moveTo_not_mem_click x y _ _ _)
        · exact m1 x y hm

/-- C9: starting from the (0,0) seed, every cursor move the pipeline
emits, and the smoother state after any run, lie within
`[0, scr_w] × [0, scr_h]`; and the margin mapper clamps every rational
input — whatever the value and margin — into `[0, 1]`. -/
theorem c9_cursor_within_screen (cfg : Config) (fs : List (Option Hand))
    (hw : 0 < cfg.scr_w) (hh : 0 < cfg.scr_h) :
    (∀ x y, MouseAction.moveTo x y ∈ (run cfg initState fs).actions →
      0 ≤ x ∧ x ≤ cfg.scr_w ∧ 0 ≤ y ∧ y ≤ cfg.scr_h) ∧
    (0 ≤ (run cfg initState fs).final.prev_x ∧
     (run cfg initState fs).final.prev_x ≤ cfg.scr_w ∧
     0 ≤ (run cfg initState fs).final.prev_y ∧
     (run cfg initState fs).final.prev_y ≤ cfg.scr_h) ∧
    (∀ v m : ℚ, 0 ≤ map_with_margin v m ∧ map_with_margin v m ≤ 1) := by
  obtain ⟨m1, m2⟩ := run_cursor_bounds cfg hw hh fs initState
    le_rfl hw.le le_rfl hh.le
  exact ⟨m1, m2, fun v m =>
    ⟨map_with_margin_nonneg v m, map_with_margin_le_one v m⟩⟩

/-- Witness for C9 on a one-frame run over the exit-gesture hand. -/
theorem c9_witness :
    (∀ x y, MouseAction.moveTo x y ∈ (run cfg0 initState [some exitHand]).actions →
      0 ≤ x ∧ x ≤ cfg0.scr_w ∧ 0 ≤ y ∧ y ≤ cfg0.scr_h) ∧
    (0 ≤ (run cfg0 initState [some exitHand]).final.prev_x ∧
     (run cfg0 initState [some exitHand]).final.prev_x ≤ cfg0.scr_w ∧
     0 ≤ (run cfg0 initState [some exitHand]).final.prev_y ∧
     (run cfg0 initState [some exitHand]).final.prev_y ≤ cfg0.scr_h) ∧
    (∀ v m : ℚ, 0 ≤ map_with_margin v m ∧ map_with_margin v m ≤ 1) :=
  c9_cursor_within_screen cfg0 [some exitHand] (by decide) (by decide)

/-! ## C7: the per-frame orchestration order -/

/-- C7 counterexample: on the first qualifying exit-gesture frame the
code has already mapped, smoothed and performed the cursor move before
the exit check fires, so the terminating frame's observable actions are
`[moveTo 288 162]` — while under the order the claim states (cursor
mapping after the exit evaluation, which bypasses all further work) a
terminating frame would perform no action at all. -/
theorem c7_counterexample :
    processFrame cfg0 initState (some exitHand) =
      FrameResult.terminated [MouseAction.moveTo 288 162] ∧
    processFrameSpecOrder cfg0 initState (some exitHand) =
      FrameResult.terminated [] ∧
    processFrame cfg0 initState (some exitHand) ≠
      processFrameSpecOrder cfg0 initState (some exitHand) := by
  have h1 : processFrame cfg0 initState (some exitHand) =
      FrameResult.terminated [MouseAction.moveTo 288 162] := by
    rw [processFrame_exit cfg0 qualifiesB_exitHand rfl,
      show initState.prev_x = 0 from rfl, show initState.prev_y = 0 from rfl,
      cursorX_exitHand, cursorY_exitHand, smoothStep_0_960, smoothStep_0_540]
  have h2 : processFrameSpecOrder cfg0 initState (some exitHand) =
      FrameResult.terminated [] := by
    simp [processFrameSpecOrder, qualifiesB_exitHand, initState]
  refine ⟨h1, h2, ?_⟩
  rw [h1, h2]
  simp

/-- C7 (amended): within a hand frame the code first maps and smooths
the cursor and performs the move; then classifies and evaluates the
exit gesture, terminating immediately on its rising edge — bypassing
the latch updates, the fingertip projection and the output handoff, but
after the cursor move was already performed; otherwise it updates the
grab, ring-click and pinky-click latches (emitting their actions in
that order after the move), then projects the fingertips and assembles
the frame output. -/
theorem c7_pipeline_order (cfg : Config) (s : LoopState) (h : Hand) :
    (qualifiesB h = true → s.all_fingers_were_down = false →
      processFrame cfg s (some h) =
        FrameResult.terminated
          [MouseAction.moveTo (smoothStep s.prev_x (cursorX cfg h))
            (smoothStep s.prev_y (cursorY cfg h))]) ∧
    ((qualifiesB h = false ∨ s.all_fingers_were_down = true) →
      processFrame cfg s (some h) =
        FrameResult.next (nextState cfg s h)
          (MouseAction.moveTo (smoothStep s.prev_x (cursorX cfg h))
              (smoothStep s.prev_y (cursorY cfg h)) ::
            ((grabStep (middleDown h) s.middle_grabbed).1 ++
              ((clickStep MButton.right (ringDown h) s.ring_was_down).1 ++
               (clickStep MButton.left (pinkyDown h) s.pinky_was_down).1)))
          ⟨tipsFor cfg h, gesturesFor h⟩) :=
  ⟨fun hq hl => processFrame_exit cfg hq hl,
   fun hc => processFrame_cont cfg hc⟩

/-- Witness for C7 (amended): a terminating exit frame and a plain
frame from the initial state. -/
theorem c7_witness :
    processFrame cfg0 initState (some exitHand) =
      FrameResult.terminated
        [MouseAction.moveTo (smoothStep initState.prev_x (cursorX cfg0 exitHand))
          (smoothStep initState.prev_y (cursorY cfg0 exitHand))] ∧
    processFrame cfg0 initState (some flatHand) =
      FrameResult.next (nextState cfg0 initState flatHand)
        (MouseAction.moveTo (smoothStep initState.prev_x (cursorX cfg0 flatHand))
            (smoothStep initState.prev_y (cursorY cfg0 flatHand)) ::
          ((grabStep (middleDown flatHand) initState.middle_grabbed).1 ++
            ((clickStep MButton.right (ringDown flatHand) initState.ring_was_down).1 ++
             (clickStep MButton.left (pinkyDown flatHand) initState.pinky_was_down).1)))
        ⟨tipsFor cfg0 flatHand, gesturesFor flatHand⟩ :=
  ⟨(c7_pipeline_order cfg0 initState exitHand).1 qualifiesB_exitHand rfl,
   (c7_pipeline_order cfg0 initState flatHand).2 (Or.inl flatHand_eval.2.2.2)⟩
